import Mathlib

/-!
Verification of `NeighborTable` (crates/accelerate/src/sabre_swap/neighbor_table.rs).

The Rust code builds, from a dense `N×N` `f64` adjacency matrix, a vector of
per-row neighbor lists (`Vec<Vec<PhysicalQubit>>`), optionally scanning the rows
in parallel via rayon, and exposes pickling support (`__getstate__` /
`__setstate__`).

Embedding choices:
* An `f64` matrix entry is represented by its IEEE-754 binary64 bit pattern,
  a `Nat` below `2 ^ 64` (bit 63 is the sign).  The only operation the code
  performs on an entry is the comparison `*value == 0.`, which in IEEE-754
  holds exactly when the value is `+0.0` or `-0.0`, i.e. when all bits except
  the sign bit are clear; this is `bits % 2 ^ 63 = 0`.
* `PhysicalQubit` (from `crate::nlayout`, whose source is not part of the
  given fragment) is modelled from the spec as a wrapper around a 32-bit
  unsigned node index.
* `row_index.try_into()` is the fallible `usize → u32` conversion: it succeeds
  exactly when the index is below `2 ^ 32`, and its error (`TryFromIntError`,
  converted into a Python `OverflowError` by `err.into()`) carries a fixed
  message that does not depend on the failing index.
* `collect::<Result<_, _>>()` over a sequential iterator stops at the first
  error (`collectExcept`); rayon's order-preserving parallel collect is
  modelled by the relation `parCollect`, which is deterministic on success and
  may report any one of the contained errors on failure.
-/

/-- IEEE-754 binary64 comparison `value == 0.0`, on the 64-bit pattern of
`value`: true exactly when every bit other than the sign bit is clear
(`+0.0` or `-0.0`); false for NaN, infinities, subnormals and all nonzero
finite values. -/
def f64EqZero (bits : Nat) : Bool :=
  bits % 2 ^ 63 == 0

/-- Bit pattern of `+0.0`. -/
def f64PosZeroBits : Nat := 0

/-- Bit pattern of `-0.0` (sign bit only). -/
def f64NegZeroBits : Nat := 2 ^ 63

/-- Bit pattern of `1.0`. -/
def f64OneBits : Nat := 0x3ff0000000000000

/-- Bit pattern of the canonical quiet NaN. -/
def f64NanBits : Nat := 0x7ff8000000000000

/-- Bit pattern of `+∞`. -/
def f64PosInfBits : Nat := 0x7ff0000000000000

/-- Bit pattern of `-∞`. -/
def f64NegInfBits : Nat := 0xfff0000000000000

/-- Bit pattern of the smallest positive subnormal. -/
def f64MinSubnormalBits : Nat := 1

/-- Modelled from the spec: `PhysicalQubit` (defined in `crate::nlayout`, not
part of the given source fragment) wraps a 32-bit unsigned node index
("historically 32-bit unsigned"). -/
structure PhysicalQubit where
  index : Fin (2 ^ 32)
deriving DecidableEq, Repr

/-- `PhysicalQubit::new(index)`. -/
def PhysicalQubit.new (index : Fin (2 ^ 32)) : PhysicalQubit := ⟨index⟩

/-- The fixed message of Rust's `TryFromIntError` (what `err.into()` turns
into the Python `OverflowError`); it does not mention the failing index. -/
def tryFromIntErrMsg : String :=
  "out of range integral type conversion attempted"

/-- `row_index.try_into()` for `usize → u32`: succeeds exactly when the index
fits in 32 bits, otherwise fails with the fixed `TryFromIntError` message. -/
def tryIntoU32 (n : Nat) : Except String (Fin (2 ^ 32)) :=
  if h : n < 2 ^ 32 then .ok ⟨n, h⟩ else .error tryFromIntErrMsg

/-- `Iterator::collect::<Result<Vec<_>, _>>()`: collect a sequence of fallible
results, stopping at the first error. -/
def collectExcept : List (Except ε α) → Except ε (List α)
  | [] => .ok []
  | x :: xs => do
    let a ← x
    let as ← collectExcept xs
    pure (a :: as)

/-- The `build_neighbors` closure: enumerate a row, keep the positions of the
entries that are not `== 0.`, converting each kept position with
`try_into()`, and collect the fallible results. -/
def build_neighbors (row : List Nat) : Except String (List PhysicalQubit) :=
  collectExcept
    (row.enum.filterMap fun p =>
      if f64EqZero p.2 then
        none
      else
        some ((tryIntoU32 p.1).map PhysicalQubit.new))

/-- The `NeighborTable` struct: a vector of vectors of neighbors. -/
structure NeighborTable where
  neighbors : List (List PhysicalQubit)
deriving DecidableEq, Repr

/-- `NeighborTable::new` along the sequential path (`run_in_parallel` false):
map `build_neighbors` over the rows and collect, or return an empty table
when no matrix is supplied. -/
def NeighborTable.new (adjacency_matrix : Option (List (List Nat))) :
    Except String NeighborTable :=
  match adjacency_matrix with
  | some adj_mat =>
      (collectExcept (adj_mat.map build_neighbors)).map NeighborTable.mk
  | none => .ok (NeighborTable.mk [])

/-- Rayon's `into_par_iter().map(...).collect::<Result<Vec<_>, _>>()` over the
already-computed per-row results: on success the rows appear in their input
order; on failure some contained error (unspecified which) is reported. -/
def parCollect (results : List (Except ε α)) (out : Except ε (List α)) : Prop :=
  (∃ as, results = as.map Except.ok ∧ out = .ok as) ∨
  (∃ e, Except.error e ∈ results ∧ out = .error e)

/-- `NeighborTable::new` with the process-wide `run_in_parallel` flag made
explicit, as a relation between the optional matrix and the outcome (the
parallel branch is nondeterministic in which row's error it reports). -/
def NeighborTable.newRel (run_in_parallel : Bool)
    (adjacency_matrix : Option (List (List Nat)))
    (out : Except String NeighborTable) : Prop :=
  match adjacency_matrix with
  | some adj_mat =>
      if run_in_parallel then
        ∃ r, parCollect (adj_mat.map build_neighbors) r ∧
          out = r.map NeighborTable.mk
      else
        out = (collectExcept (adj_mat.map build_neighbors)).map NeighborTable.mk
  | none => out = .ok (NeighborTable.mk [])

/-- `__getstate__`: return (a clone of) the neighbor mapping.  In the pure
embedding the Rust `clone()` of the `Vec<Vec<PhysicalQubit>>` is the value
itself, and the `&self` receiver cannot modify the table. -/
def NeighborTable.getstate (t : NeighborTable) : List (List PhysicalQubit) :=
  t.neighbors

/-- `__setstate__`: replace the neighbor mapping with the supplied state,
without validation. -/
def NeighborTable.setstate (t : NeighborTable)
    (state : List (List PhysicalQubit)) : NeighborTable :=
  { t with neighbors := state }

/-- The spec's description of one row of the table: "the sorted set of column
indices `j` where `matrix[i][j] != 0`" — the column indices with a nonzero
entry, in ascending order. -/
def specNeighborRow (row : List Nat) : List Nat :=
  (List.range row.length).filter fun j => !f64EqZero (row.getD j 0)

/-- Fused form of `build_neighbors`, scanning a row whose first entry sits at
column `start`. -/
def buildAux (start : Nat) : List Nat → Except String (List PhysicalQubit)
  | [] => .ok []
  | v :: rest =>
    if f64EqZero v then
      buildAux (start + 1) rest
    else if h : start < 2 ^ 32 then
      (buildAux (start + 1) rest).map (PhysicalQubit.new ⟨start, h⟩ :: ·)
    else
      .error tryFromIntErrMsg

/-! ### Helper lemmas -/

theorem collectExcept_enumFrom_filterMap (row : List Nat) :
    ∀ start : Nat,
      collectExcept
        ((row.enumFrom start).filterMap fun p =>
          if f64EqZero p.2 then none
          else some ((tryIntoU32 p.1).map PhysicalQubit.new)) =
      buildAux start row := by
  induction row with
  | nil => intro start; rfl
  | cons v rest ih =>
    intro start
    show collectExcept (List.filterMap _ ((start, v) :: rest.enumFrom (start + 1))) = _
    rw [List.filterMap_cons]
    by_cases hz : f64EqZero v
    · simp only [hz, if_pos trivial, ih, buildAux, if_pos]
    · simp only [hz, Bool.false_eq_true, reduceIte, collectExcept, bind, Except.bind]
      rw [ih (start + 1)]
      conv_rhs => rw [buildAux]
      simp only [hz, Bool.false_eq_true, reduceIte]
      by_cases h : start < 2 ^ 32
      all_goals simp only [tryIntoU32, h, reduceDIte, Except.map]
      all_goals rfl

theorem build_neighbors_eq_buildAux (row : List Nat) :
    build_neighbors row = buildAux 0 row :=
  collectExcept_enumFrom_filterMap row 0

theorem buildAux_error_canonical (row : List Nat) :
    ∀ start e, buildAux start row = .error e → e = tryFromIntErrMsg := by
  induction row with
  | nil => intro start e h; cases h
  | cons v rest ih =>
    intro start e h
    rw [buildAux] at h
    split at h
    · exact ih _ _ h
    · split at h
      · cases hb : buildAux (start + 1) rest with
        | ok qs => rw [hb] at h; simp [Except.map] at h
        | error e2 =>
          rw [hb] at h
          simp only [Except.map] at h
          cases h
          exact ih _ _ hb
      · exact (Except.error.inj h).symm

theorem buildAux_eq_error_iff (row : List Nat) :
    ∀ start, buildAux start row = .error tryFromIntErrMsg ↔
      ∃ j, j < row.length ∧ f64EqZero (row.getD j 0) = false ∧ 2 ^ 32 ≤ start + j := by
  induction row with
  | nil => intro start; simp [buildAux]
  | cons v rest ih =>
    intro start
    rw [buildAux]
    by_cases hz : f64EqZero v
    · rw [if_pos hz, ih]
      constructor
      · rintro ⟨j, hj, hnz, hge⟩
        exact ⟨j + 1, by simp only [List.length_cons]; omega,
          by simpa [List.getD_cons_succ] using hnz, by omega⟩
      · rintro ⟨j, hj, hnz, hge⟩
        cases j with
        | zero => rw [List.getD_cons_zero, hz] at hnz; cases hnz
        | succ j =>
          exact ⟨j, by simp only [List.length_cons] at hj; omega,
            by simpa [List.getD_cons_succ] using hnz, by omega⟩
    · rw [if_neg hz]
      by_cases hlt : start < 2 ^ 32
      · have hmap : Except.map (PhysicalQubit.new ⟨start, hlt⟩ :: ·)
              (buildAux (start + 1) rest) = .error tryFromIntErrMsg ↔
            buildAux (start + 1) rest = .error tryFromIntErrMsg := by
          cases buildAux (start + 1) rest <;> simp [Except.map]
        rw [dif_pos hlt, hmap, ih]
        constructor
        · rintro ⟨j, hj, hnz, hge⟩
          exact ⟨j + 1, by simp only [List.length_cons]; omega,
            by simpa [List.getD_cons_succ] using hnz, by omega⟩
        · rintro ⟨j, hj, hnz, hge⟩
          cases j with
          | zero => omega
          | succ j =>
            exact ⟨j, by simp only [List.length_cons] at hj; omega,
              by simpa [List.getD_cons_succ] using hnz, by omega⟩
      · rw [dif_neg hlt]
        exact iff_of_true rfl
          ⟨0, by simp, by simpa using hz, by omega⟩

theorem buildAux_replicate_zero (z : Nat) (hz : f64EqZero z = true) (n : Nat) :
    ∀ start (rest : List Nat),
      buildAux start (List.replicate n z ++ rest) = buildAux (start + n) rest := by
  induction n with
  | zero => intro start rest; simp
  | succ n ih =>
    intro start rest
    rw [List.replicate_succ, List.cons_append, buildAux, if_pos hz, ih]
    congr 1
    omega

theorem specNeighborRow_nil : specNeighborRow [] = [] := rfl

theorem specNeighborRow_cons (v : Nat) (rest : List Nat) :
    specNeighborRow (v :: rest) =
      (if f64EqZero v then [] else [0]) ++ (specNeighborRow rest).map Nat.succ := by
  unfold specNeighborRow
  rw [List.length_cons, List.range_succ_eq_map, List.filter_cons]
  by_cases hz : f64EqZero v <;>
    simp [hz, List.filter_map, Function.comp_def, Nat.succ_eq_add_one, List.getElem?_cons_succ]

theorem buildAux_ok_of_bounded (row : List Nat) :
    ∀ start,
      (∀ j, j < row.length → f64EqZero (row.getD j 0) = false → start + j < 2 ^ 32) →
      ∃ qs, buildAux start row = .ok qs ∧
        qs.map (fun q => (q.index : Nat)) = (specNeighborRow row).map (start + ·) := by
  induction row with
  | nil => intro start _; exact ⟨[], rfl, by simp [specNeighborRow]⟩
  | cons v rest ih =>
    intro start H
    have Hrest : ∀ j, j < rest.length → f64EqZero (rest.getD j 0) = false →
        (start + 1) + j < 2 ^ 32 := by
      intro j hj hnz
      have := H (j + 1) (by simp only [List.length_cons]; omega)
        (by simpa [List.getD_cons_succ] using hnz)
      omega
    obtain ⟨qs, hqs, hmap⟩ := ih (start + 1) Hrest
    rw [buildAux]
    by_cases hz : f64EqZero v
    · rw [if_pos hz]
      refine ⟨qs, hqs, ?_⟩
      rw [hmap, specNeighborRow_cons, if_pos hz]
      simp only [List.nil_append, List.map_map]
      apply List.map_congr_left
      intro j _
      simp only [Function.comp_apply]
      omega
    · have hlt : start < 2 ^ 32 := by
        have := H 0 (by simp) (by simpa using hz)
        omega
      rw [if_neg hz, dif_pos hlt, hqs]
      refine ⟨PhysicalQubit.new ⟨start, hlt⟩ :: qs, rfl, ?_⟩
      rw [List.map_cons, hmap, specNeighborRow_cons, if_neg hz]
      simp only [List.cons_append, List.nil_append, List.map_cons, List.map_map]
      refine congrArg₂ _ (by simp [PhysicalQubit.new]) ?_
      apply List.map_congr_left
      intro j _
      simp only [Function.comp_apply]
      omega

theorem collectExcept_map_ok {ε α : Type} (as : List α) :
    collectExcept (as.map (Except.ok : α → Except ε α)) = .ok as := by
  induction as with
  | nil => rfl
  | cons a as ih =>
    simp only [List.map_cons, collectExcept, bind, Except.bind, ih]
    rfl

theorem collectExcept_ok_elim {ε α : Type} (rs : List (Except ε α)) :
    ∀ as, collectExcept rs = .ok as → rs = as.map Except.ok := by
  induction rs with
  | nil =>
    intro as h
    cases h
    rfl
  | cons x xs ih =>
    intro as h
    cases x with
    | error e => simp [collectExcept, bind, Except.bind] at h
    | ok a =>
      simp only [collectExcept, bind, Except.bind] at h
      cases hx : collectExcept xs with
      | error e => rw [hx] at h; cases h
      | ok l =>
        rw [hx] at h
        simp only [pure, Except.pure] at h
        cases h
        rw [List.map_cons, ← ih _ hx]

theorem mem_of_collectExcept_error {ε α : Type} (rs : List (Except ε α)) :
    ∀ e, collectExcept rs = .error e → Except.error e ∈ rs := by
  induction rs with
  | nil => intro e h; cases h
  | cons x xs ih =>
    intro e h
    cases x with
    | error e2 =>
      have : e2 = e := Except.error.inj h
      rw [this]
      exact List.mem_cons_self _ _
    | ok a =>
      simp only [collectExcept, bind, Except.bind] at h
      cases hx : collectExcept xs with
      | error e2 =>
        rw [hx] at h
        cases h
        exact List.mem_cons_of_mem _ (ih _ hx)
      | ok l =>
        rw [hx] at h
        simp [pure, Except.pure] at h

theorem collectExcept_error_of_mem {ε α : Type} (rs : List (Except ε α)) (e : ε)
    (hmem : Except.error e ∈ rs) :
    ∃ e2, collectExcept rs = .error e2 ∧ Except.error e2 ∈ rs := by
  induction rs with
  | nil => cases hmem
  | cons x xs ih =>
    cases x with
    | error e3 =>
      exact ⟨e3, rfl, List.mem_cons_self _ _⟩
    | ok a =>
      have hmem2 : Except.error e ∈ xs := by
        rcases List.mem_cons.mp hmem with h | h
        · cases h
        · exact h
      obtain ⟨e2, hc, hm⟩ := ih hmem2
      refine ⟨e2, ?_, List.mem_cons_of_mem _ hm⟩
      simp [collectExcept, bind, Except.bind, hc]

theorem parCollect_ok_iff {ε α : Type} (rs : List (Except ε α)) (as : List α) :
    parCollect rs (.ok as) ↔ collectExcept rs = .ok as := by
  constructor
  · intro h
    rcases h with ⟨bs, hrs, hout⟩ | ⟨e, _, hout⟩
    · cases hout
      rw [hrs]
      exact collectExcept_map_ok as
    · cases hout
  · intro h
    exact Or.inl ⟨as, collectExcept_ok_elim rs as h, rfl⟩

theorem collect_rows_ok (m : List (List Nat))
    (H : ∀ row ∈ m, ∀ j, j < row.length → f64EqZero (row.getD j 0) = false → j < 2 ^ 32) :
    ∃ ns, collectExcept (m.map build_neighbors) = .ok ns ∧ ns.length = m.length ∧
      ∀ i, i < m.length →
        (ns.getD i []).map (fun q => (q.index : Nat)) = specNeighborRow (m.getD i []) := by
  induction m with
  | nil =>
    refine ⟨[], rfl, rfl, ?_⟩
    intro i hi
    cases hi
  | cons row m2 ih =>
    obtain ⟨ns2, hc2, hl2, hi2⟩ := ih fun r hr => H r (List.mem_cons_of_mem _ hr)
    have Hrow := H row (List.mem_cons_self _ _)
    obtain ⟨qs, hqs, hmap⟩ := buildAux_ok_of_bounded row 0
      (by intro j hj hnz; simpa using Hrow j hj hnz)
    refine ⟨qs :: ns2, ?_, by simp [hl2], ?_⟩
    · simp [List.map_cons, collectExcept, bind, Except.bind,
        build_neighbors_eq_buildAux, hqs, hc2, pure, Except.pure]
    · intro i hi
      cases i with
      | zero => simpa using hmap
      | succ i =>
        simp only [List.getD_cons_succ]
        exact hi2 i (by simp only [List.length_cons] at hi; omega)

theorem specNeighborRow_sorted (row : List Nat) :
    List.Sorted (· < ·) (specNeighborRow row) :=
  List.Sorted.filter _ (List.sorted_lt_range row.length)

theorem specNeighborRow_nodup (row : List Nat) : (specNeighborRow row).Nodup :=
  List.Nodup.filter _ (List.nodup_range row.length)

theorem mem_specNeighborRow (row : List Nat) (j : Nat) :
    j ∈ specNeighborRow row ↔ j < row.length ∧ f64EqZero (row.getD j 0) = false := by
  simp [specNeighborRow, List.mem_filter, List.mem_range]

theorem map_mk_eq_ok_iff (r : Except String (List (List PhysicalQubit)))
    (t : NeighborTable) :
    Except.map NeighborTable.mk r = .ok t ↔ r = .ok t.neighbors := by
  cases r with
  | error e => simp [Except.map]
  | ok ns =>
    cases t
    simp [Except.map, NeighborTable.mk.injEq]

theorem map_mk_eq_error_iff (r : Except String (List (List PhysicalQubit)))
    (e : String) :
    Except.map NeighborTable.mk r = .error e ↔ r = .error e := by
  cases r <;> simp [Except.map]

theorem row_error_canonical (m : List (List Nat)) (e : String)
    (hmem : Except.error e ∈ m.map build_neighbors) : e = tryFromIntErrMsg := by
  rcases List.mem_map.mp hmem with ⟨row, _, hrow⟩
  rw [build_neighbors_eq_buildAux] at hrow
  exact buildAux_error_canonical row 0 e hrow

theorem build_neighbors_eq_error_iff (row : List Nat) :
    build_neighbors row = .error tryFromIntErrMsg ↔
      ∃ j, j < row.length ∧ f64EqZero (row.getD j 0) = false ∧ 2 ^ 32 ≤ j := by
  rw [build_neighbors_eq_buildAux, buildAux_eq_error_iff]
  constructor
  · rintro ⟨j, hj, hnz, hge⟩
    exact ⟨j, hj, hnz, by omega⟩
  · rintro ⟨j, hj, hnz, hge⟩
    exact ⟨j, hj, hnz, by omega⟩

theorem new_error_iff (m : List (List Nat)) :
    NeighborTable.new (some m) = .error tryFromIntErrMsg ↔
      ∃ row ∈ m, ∃ j, j < row.length ∧ f64EqZero (row.getD j 0) = false ∧ 2 ^ 32 ≤ j := by
  show Except.map NeighborTable.mk (collectExcept (m.map build_neighbors)) = _ ↔ _
  rw [map_mk_eq_error_iff]
  constructor
  · intro h
    have hmem := mem_of_collectExcept_error _ _ h
    rcases List.mem_map.mp hmem with ⟨row, hrow, hbuild⟩
    rcases (build_neighbors_eq_error_iff row).mp hbuild with ⟨j, hj, hnz, hge⟩
    exact ⟨row, hrow, j, hj, hnz, hge⟩
  · rintro ⟨row, hrow, j, hj, hnz, hge⟩
    have hbuild : build_neighbors row = .error tryFromIntErrMsg :=
      (build_neighbors_eq_error_iff row).mpr ⟨j, hj, hnz, hge⟩
    have hmem : Except.error tryFromIntErrMsg ∈ m.map build_neighbors :=
      List.mem_map.mpr ⟨row, hrow, hbuild⟩
    obtain ⟨e2, hc, hm⟩ := collectExcept_error_of_mem _ _ hmem
    rw [hc, row_error_canonical m e2 hm]

theorem new_error_canonical (m : List (List Nat)) (e : String)
    (h : NeighborTable.new (some m) = .error e) : e = tryFromIntErrMsg := by
  have h2 : collectExcept (m.map build_neighbors) = .error e :=
    (map_mk_eq_error_iff _ _).mp h
  exact row_error_canonical m e (mem_of_collectExcept_error _ _ h2)

theorem newRel_error_of_failing (rip : Bool) (m : List (List Nat))
    (out : Except String NeighborTable)
    (hfail : ∃ row ∈ m, ∃ j, j < row.length ∧ f64EqZero (row.getD j 0) = false ∧ 2 ^ 32 ≤ j)
    (hrel : NeighborTable.newRel rip (some m) out) :
    out = .error tryFromIntErrMsg := by
  rcases hfail with ⟨row, hrow, j, hj, hnz, hge⟩
  have hbuild : build_neighbors row = .error tryFromIntErrMsg :=
    (build_neighbors_eq_error_iff row).mpr ⟨j, hj, hnz, hge⟩
  have hmem : Except.error tryFromIntErrMsg ∈ m.map build_neighbors :=
    List.mem_map.mpr ⟨row, hrow, hbuild⟩
  cases rip with
  | false =>
    obtain ⟨e2, hc, hm⟩ := collectExcept_error_of_mem _ _ hmem
    have hout : out = Except.map NeighborTable.mk (collectExcept (m.map build_neighbors)) := hrel
    rw [hout, hc, row_error_canonical m e2 hm]
    rfl
  | true =>
    obtain ⟨r, hpar, hout⟩ := hrel
    rcases hpar with ⟨as, hrs, hr⟩ | ⟨e, hm, hr⟩
    · rw [hrs] at hmem
      rcases List.mem_map.mp hmem with ⟨a, _, ha⟩
      cases ha
    · rw [hout, hr, row_error_canonical m e hm]
      rfl

theorem collectExcept_replicate_ok {ε α : Type} (a : α) (n : Nat) :
    collectExcept (List.replicate n (Except.ok a : Except ε α)) = .ok (List.replicate n a) := by
  induction n with
  | zero => rfl
  | succ n ih =>
    simp [List.replicate_succ, collectExcept, bind, Except.bind, ih, pure, Except.pure]

theorem build_neighbors_replicate_zero (n : Nat) :
    build_neighbors (List.replicate n f64PosZeroBits) = .ok [] := by
  have h := buildAux_replicate_zero f64PosZeroBits rfl n 0 []
  rw [List.append_nil] at h
  rw [build_neighbors_eq_buildAux, h]
  rfl

theorem build_neighbors_replicate_zero_append_one (n : Nat) (h : 2 ^ 32 ≤ n) :
    build_neighbors (List.replicate n f64PosZeroBits ++ [f64OneBits]) =
      .error tryFromIntErrMsg := by
  rw [build_neighbors_eq_buildAux,
    buildAux_replicate_zero f64PosZeroBits rfl n 0 [f64OneBits], buildAux]
  rw [if_neg (by decide), dif_neg (by omega)]

theorem new_replicate_zero_matrix (n : Nat) :
    NeighborTable.new (some (List.replicate n (List.replicate n f64PosZeroBits))) =
      .ok (NeighborTable.mk (List.replicate n [])) := by
  show Except.map NeighborTable.mk _ = _
  rw [List.map_replicate, build_neighbors_replicate_zero, collectExcept_replicate_ok]
  rfl

theorem new_single_error_row (row : List Nat)
    (h : build_neighbors row = .error tryFromIntErrMsg) :
    NeighborTable.new (some [row]) = .error tryFromIntErrMsg := by
  show Except.map NeighborTable.mk (collectExcept ([row].map build_neighbors)) = _
  rw [List.map_singleton]
  simp [collectExcept, bind, Except.bind, h, Except.map]

theorem getD_replicate_append (n z o d : Nat) :
    (List.replicate n z ++ [o]).getD n d = o := by
  induction n with
  | zero => rfl
  | succ n ih => simp [List.replicate_succ, List.getD_cons_succ, ih]

/-! ### Claims -/

/-- C1: For every N×N matrix whose nonzero column positions are all
representable as node indices, the constructed table's row `i` equals exactly
the list of column indices `j` where `matrix[i][j] != 0` (as described by
`specNeighborRow`), in ascending column order, with no duplicates, and with a
self-loop entry `i` present whenever the diagonal entry of row `i` is
nonzero. -/
theorem new_rows_eq_sorted_nonzero_columns (m : List (List Nat))
    (H : ∀ row ∈ m, ∀ j, j < row.length → f64EqZero (row.getD j 0) = false → j < 2 ^ 32) :
    ∃ t, NeighborTable.new (some m) = .ok t ∧ t.neighbors.length = m.length ∧
      ∀ i, i < m.length →
        (t.neighbors.getD i []).map (fun q => (q.index : Nat)) = specNeighborRow (m.getD i []) ∧
        List.Sorted (· < ·) ((t.neighbors.getD i []).map (fun q => (q.index : Nat))) ∧
        ((t.neighbors.getD i []).map (fun q => (q.index : Nat))).Nodup ∧
        (f64EqZero ((m.getD i []).getD i 0) = false → i < (m.getD i []).length →
          i ∈ (t.neighbors.getD i []).map (fun q => (q.index : Nat))) := by
  obtain ⟨ns, hc, hlen, hrows⟩ := collect_rows_ok m H
  refine ⟨NeighborTable.mk ns, ?_, hlen, ?_⟩
  · show Except.map NeighborTable.mk _ = _
    rw [hc]
    rfl
  · intro i hi
    have hrow := hrows i hi
    refine ⟨hrow, ?_, ?_, ?_⟩
    · rw [hrow]; exact specNeighborRow_sorted _
    · rw [hrow]; exact specNeighborRow_nodup _
    · intro hnz hlt
      rw [hrow]
      exact (mem_specNeighborRow _ _).mpr ⟨hlt, hnz⟩

/-- Witness for C1 at the spec's asymmetric matrix `[[0,1],[0,0]]`. -/
theorem new_rows_eq_sorted_nonzero_columns_witness :
    (∀ row ∈ [[f64PosZeroBits, f64OneBits], [f64PosZeroBits, f64PosZeroBits]],
      ∀ j, j < row.length → f64EqZero (row.getD j 0) = false → j < 2 ^ 32) ∧
    (∃ t, NeighborTable.new
        (some [[f64PosZeroBits, f64OneBits], [f64PosZeroBits, f64PosZeroBits]]) = .ok t ∧
      t.neighbors.length = [[f64PosZeroBits, f64OneBits], [f64PosZeroBits, f64PosZeroBits]].length ∧
      ∀ i, i < [[f64PosZeroBits, f64OneBits], [f64PosZeroBits, f64PosZeroBits]].length →
        (t.neighbors.getD i []).map (fun q => (q.index : Nat)) =
          specNeighborRow ([[f64PosZeroBits, f64OneBits], [f64PosZeroBits, f64PosZeroBits]].getD i []) ∧
        List.Sorted (· < ·) ((t.neighbors.getD i []).map (fun q => (q.index : Nat))) ∧
        ((t.neighbors.getD i []).map (fun q => (q.index : Nat))).Nodup ∧
        (f64EqZero (([[f64PosZeroBits, f64OneBits], [f64PosZeroBits, f64PosZeroBits]].getD i []).getD i 0) = false →
          i < ([[f64PosZeroBits, f64OneBits], [f64PosZeroBits, f64PosZeroBits]].getD i []).length →
          i ∈ (t.neighbors.getD i []).map (fun q => (q.index : Nat)))) :=
  ⟨by decide, new_rows_eq_sorted_nonzero_columns _ (by decide)⟩

/-- C2: For every input matrix (present or absent), constructing with the
parallel policy enabled and with it disabled yields identical tables: any
table the parallel mode can produce is exactly the table the sequential mode
produces, and conversely. -/
theorem newRel_parallel_iff_sequential (m : Option (List (List Nat))) (t : NeighborTable) :
    NeighborTable.newRel true m (.ok t) ↔ NeighborTable.newRel false m (.ok t) := by
  cases m with
  | none => exact Iff.rfl
  | some mat =>
    constructor
    · intro h
      obtain ⟨r, hpar, hout⟩ := h
      have hr : r = .ok t.neighbors := (map_mk_eq_ok_iff r t).mp hout.symm
      subst hr
      have hc := (parCollect_ok_iff _ _).mp hpar
      show Except.ok t = Except.map NeighborTable.mk (collectExcept (mat.map build_neighbors))
      rw [hc]
      cases t
      rfl
    · intro hseq
      have hc : collectExcept (mat.map build_neighbors) = .ok t.neighbors :=
        (map_mk_eq_ok_iff _ t).mp hseq.symm
      refine ⟨.ok t.neighbors, (parCollect_ok_iff _ _).mpr hc, ?_⟩
      cases t
      rfl

/-- C3: The round-trip of `__getstate__` followed by `__setstate__` is the
identity on the table. -/
theorem setstate_getstate_roundtrip (t : NeighborTable) :
    t.setstate t.getstate = t := rfl

/-- C4 (amended): Whenever some nonzero entry sits at a column position too
large for the node-index type, construction as a whole — in either concurrency
mode — fails with the conversion/overflow error (whose value is the fixed
`TryFromIntError` message and does not identify the offending position), and
no table is returned. -/
theorem new_fails_atomically_on_overflow (run_in_parallel : Bool)
    (m : List (List Nat)) (out : Except String NeighborTable)
    (hfail : ∃ row ∈ m, ∃ j, j < row.length ∧ f64EqZero (row.getD j 0) = false ∧ 2 ^ 32 ≤ j)
    (hrel : NeighborTable.newRel run_in_parallel (some m) out) :
    out = .error tryFromIntErrMsg :=
  newRel_error_of_failing run_in_parallel m out hfail hrel

/-- C4 counterexample: two constructions failing at different offending
positions (column `2 ^ 32` vs column `2 ^ 32 + 1`, the only nonzero entries)
return the very same error value, so the error does not identify the
offending position. -/
theorem overflow_error_not_positional :
    NeighborTable.new (some [List.replicate (2 ^ 32) f64PosZeroBits ++ [f64OneBits]]) =
      .error tryFromIntErrMsg ∧
    NeighborTable.new (some [List.replicate (2 ^ 32 + 1) f64PosZeroBits ++ [f64OneBits]]) =
      .error tryFromIntErrMsg ∧
    (List.replicate (2 ^ 32) f64PosZeroBits ++ [f64OneBits]).getD (2 ^ 32) 0 = f64OneBits ∧
    (List.replicate (2 ^ 32 + 1) f64PosZeroBits ++ [f64OneBits]).getD (2 ^ 32 + 1) 0 = f64OneBits ∧
    f64EqZero f64OneBits = false ∧ (2 ^ 32 : Nat) ≠ 2 ^ 32 + 1 := by
  refine ⟨?_, ?_, getD_replicate_append _ _ _ _, getD_replicate_append _ _ _ _,
    by decide, by omega⟩
  · exact new_single_error_row _ (build_neighbors_replicate_zero_append_one _ (by omega))
  · exact new_single_error_row _ (build_neighbors_replicate_zero_append_one _ (by omega))

/-- Witness for C4 (amended): a concrete failing construction, sequential
mode, with the nonzero entry at column `2 ^ 32`. -/
theorem new_fails_atomically_on_overflow_witness :
    (∃ row ∈ [List.replicate (2 ^ 32) f64PosZeroBits ++ [f64OneBits]],
      ∃ j, j < row.length ∧ f64EqZero (row.getD j 0) = false ∧ 2 ^ 32 ≤ j) ∧
    NeighborTable.newRel false (some [List.replicate (2 ^ 32) f64PosZeroBits ++ [f64OneBits]])
      (.error tryFromIntErrMsg) ∧
    (Except.error tryFromIntErrMsg : Except String NeighborTable) = .error tryFromIntErrMsg := by
  have hfail : ∃ row ∈ [List.replicate (2 ^ 32) f64PosZeroBits ++ [f64OneBits]],
      ∃ j, j < row.length ∧ f64EqZero (row.getD j 0) = false ∧ 2 ^ 32 ≤ j := by
    refine ⟨List.replicate (2 ^ 32) f64PosZeroBits ++ [f64OneBits],
      List.mem_singleton_self _, 2 ^ 32, ?_, ?_, Nat.le_refl _⟩
    · rw [List.length_append, List.length_replicate, List.length_singleton]
      omega
    · rw [getD_replicate_append]
      decide
  have hrel : NeighborTable.newRel false
      (some [List.replicate (2 ^ 32) f64PosZeroBits ++ [f64OneBits]])
      (.error tryFromIntErrMsg) :=
    (new_single_error_row (List.replicate (2 ^ 32) f64PosZeroBits ++ [f64OneBits])
      (build_neighbors_replicate_zero_append_one (2 ^ 32) (Nat.le_refl _))).symm
  exact ⟨hfail, hrel, new_fails_atomically_on_overflow false _ _ hfail hrel⟩

/-- C5 counterexample: a `2^32 × 2^32` all-zero matrix — whose dimension
`2^32` exceeds the node-index type's maximum representable value
`2^32 - 1` — constructs successfully (conversion is attempted only for
nonzero entries), so such a matrix does not always cause construction to
fail. -/
theorem oversized_all_zero_matrix_constructs :
    2 ^ 32 - 1 < (List.replicate (2 ^ 32) (List.replicate (2 ^ 32) f64PosZeroBits)).length ∧
    NeighborTable.new (some (List.replicate (2 ^ 32) (List.replicate (2 ^ 32) f64PosZeroBits))) =
      .ok (NeighborTable.mk (List.replicate (2 ^ 32) [])) :=
  ⟨by rw [List.length_replicate]; omega, new_replicate_zero_matrix (2 ^ 32)⟩

/-- C5 (amended): For a matrix whose dimension exceeds the node-index type's
maximum representable value, construction fails with the index-conversion
error — never silently truncating an index — precisely when some nonzero
entry occupies a column position not representable in the index type;
moreover any construction error is that index-conversion error. -/
theorem oversized_matrix_error_iff_nonzero_out_of_range (m : List (List Nat))
    (_hdim : 2 ^ 32 - 1 < m.length) :
    (NeighborTable.new (some m) = .error tryFromIntErrMsg ↔
      ∃ row ∈ m, ∃ j, j < row.length ∧ f64EqZero (row.getD j 0) = false ∧ 2 ^ 32 ≤ j) ∧
    ∀ e, NeighborTable.new (some m) = .error e → e = tryFromIntErrMsg :=
  ⟨new_error_iff m, new_error_canonical m⟩

/-- Witness for C5 (amended) at a concrete oversized matrix. -/
theorem oversized_matrix_error_iff_nonzero_out_of_range_witness :
    (2 ^ 32 - 1 < (List.replicate (2 ^ 32 + 1) (List.replicate (2 ^ 32 + 1) f64PosZeroBits)).length) ∧
    ((NeighborTable.new (some (List.replicate (2 ^ 32 + 1) (List.replicate (2 ^ 32 + 1) f64PosZeroBits))) =
        .error tryFromIntErrMsg ↔
      ∃ row ∈ List.replicate (2 ^ 32 + 1) (List.replicate (2 ^ 32 + 1) f64PosZeroBits),
        ∃ j, j < row.length ∧ f64EqZero (row.getD j 0) = false ∧ 2 ^ 32 ≤ j) ∧
    ∀ e, NeighborTable.new (some (List.replicate (2 ^ 32 + 1) (List.replicate (2 ^ 32 + 1) f64PosZeroBits))) =
        .error e → e = tryFromIntErrMsg) :=
  ⟨by rw [List.length_replicate]; omega,
   oversized_matrix_error_iff_nonzero_out_of_range _ (by rw [List.length_replicate]; omega)⟩

/-- C6: Constructing with no matrix returns (in either concurrency mode,
and exactly) the table with zero rows, and Export-state on that table
returns the empty sequence. -/
theorem new_none_empty_table :
    (∀ run_in_parallel : Bool, ∀ out,
      NeighborTable.newRel run_in_parallel none out ↔ out = .ok (NeighborTable.mk [])) ∧
    NeighborTable.new none = .ok (NeighborTable.mk []) ∧
    (NeighborTable.mk []).neighbors.length = 0 ∧
    (NeighborTable.mk []).getstate = [] :=
  ⟨fun _ _ => Iff.rfl, rfl, rfl, rfl⟩

/-- C7: Restore-state replaces the table's entire neighbor mapping with the
supplied state verbatim: the result is exactly the table whose mapping is
that state, whatever the previous contents were. -/
theorem setstate_replaces_verbatim (t : NeighborTable)
    (state : List (List PhysicalQubit)) :
    t.setstate state = NeighborTable.mk state ∧ (t.setstate state).neighbors = state :=
  ⟨rfl, rfl⟩

/-- C8: Export-state returns the current neighbor mapping exactly as stored
(in the pure embedding, Rust's deep `clone()` is value equality and the
`&self` call cannot change the table); the exported state determines the
table completely. -/
theorem getstate_returns_stored_mapping (t : NeighborTable) :
    t.getstate = t.neighbors ∧ NeighborTable.mk t.getstate = t :=
  ⟨rfl, rfl⟩

/-- C9: Construction returns the index-conversion error exactly when some
nonzero entry sits at a column position not representable in the node-index
type; every construction error is that error; and when no such entry exists
— in particular for an oversized matrix whose out-of-range columns are all
zero — construction succeeds. -/
theorem new_error_iff_nonzero_unrepresentable_column (m : List (List Nat)) :
    (NeighborTable.new (some m) = .error tryFromIntErrMsg ↔
      ∃ row ∈ m, ∃ j, j < row.length ∧ f64EqZero (row.getD j 0) = false ∧ 2 ^ 32 ≤ j) ∧
    (∀ e, NeighborTable.new (some m) = .error e → e = tryFromIntErrMsg) ∧
    ((¬ ∃ row ∈ m, ∃ j, j < row.length ∧ f64EqZero (row.getD j 0) = false ∧ 2 ^ 32 ≤ j) →
      ∃ t, NeighborTable.new (some m) = .ok t) := by
  refine ⟨new_error_iff m, new_error_canonical m, ?_⟩
  intro hno
  cases h : NeighborTable.new (some m) with
  | ok t => exact ⟨t, rfl⟩
  | error e =>
    rw [new_error_canonical m e h] at h
    exact absurd ((new_error_iff m).mp h) hno

/-- C10: Edge presence is decided by exact IEEE-754 `f64` equality with
`0.0`: for every bit pattern, the single-entry matrix yields an empty
neighbor row exactly when the entry compares equal to zero; `-0.0` compares
equal to zero and so counts as no edge, while NaN, the infinities and the
smallest subnormal do not compare equal to zero and so each contributes a
neighbor entry. -/
theorem edge_presence_by_exact_zero_equality :
    (∀ v : Nat, NeighborTable.new (some [[v]]) =
      .ok (NeighborTable.mk [if f64EqZero v then []
        else [PhysicalQubit.new ⟨0, by decide⟩]])) ∧
    f64EqZero f64NegZeroBits = true ∧
    f64EqZero f64NanBits = false ∧
    f64EqZero f64PosInfBits = false ∧
    f64EqZero f64NegInfBits = false ∧
    f64EqZero f64MinSubnormalBits = false ∧
    NeighborTable.new (some [[f64NegZeroBits]]) = .ok (NeighborTable.mk [[]]) ∧
    NeighborTable.new (some [[f64NanBits]]) =
      .ok (NeighborTable.mk [[PhysicalQubit.new ⟨0, by decide⟩]]) := by
  refine ⟨?_, by decide, by decide, by decide, by decide, by decide, ?_, ?_⟩
  · intro v
    show Except.map NeighborTable.mk (collectExcept ([[v]].map build_neighbors)) = _
    rw [List.map_singleton, build_neighbors_eq_buildAux]
    by_cases hz : f64EqZero v
    · rw [buildAux, if_pos hz]
      simp [hz, collectExcept, bind, Except.bind, pure, Except.pure, Except.map, buildAux]
    · rw [buildAux, if_neg hz, dif_pos (by decide : (0 : Nat) < 2 ^ 32)]
      simp [hz, collectExcept, bind, Except.bind, pure, Except.pure, Except.map, buildAux]
  · rfl
  · rfl
